import Mathlib

/-!
Verification of the script-segmentation parser `parse_script` from
`src/app.py` (lines 26-75).  Strings are modelled as `List Char`; each
Python/`re` operation used by the source is embedded as an executable
Lean function.  Recursions that consume a variable number of characters
per step carry an explicit fuel argument, always instantiated with the
length of the input, which every step strictly decreases by at least one
character, so the zero-fuel branch is unreachable.
-/

namespace ScriptForge

/-- ASCII whitespace as recognised by Python `str.strip`, `str.split()`
and the regex class `\s`: space, tab, newline, carriage return,
vertical tab, form feed. -/
def pyIsSpace (c : Char) : Bool :=
  c == ' ' || c == '\t' || c == '\n' || c == '\r' || c == '\x0b' || c == '\x0c'

/-- Python `str.strip()`: drop whitespace from both ends. -/
def strip (l : List Char) : List Char :=
  (((l.dropWhile pyIsSpace).reverse).dropWhile pyIsSpace).reverse

/-- Uppercase a character list (Python `str.upper`, ASCII range). -/
def upperL (l : List Char) : List Char := l.map Char.toUpper

/-- Case-insensitive literal match: if the uppercased input starts with
the (already uppercase) keyword, return the remaining input. -/
def matchCI : List Char → List Char → Option (List Char)
  | [], l => some l
  | _ :: _, [] => none
  | k :: ks, c :: cs => if c.toUpper = k then matchCI ks cs else none

/-- First keyword of the alternation that matches a prefix of the input
(regex alternation tries alternatives left to right). -/
def tryKws : List (List Char) → List Char → Option (List Char)
  | [], _ => none
  | k :: ks, l =>
    match matchCI k l with
    | some r => some r
    | none => tryKws ks l

/-- The greedy optional suffix `\]?:?` of the marker patterns. -/
def dropBrColon (l : List Char) : List Char :=
  let l1 := match l with
    | ']' :: r => r
    | _ => l
  match l1 with
  | ':' :: r => r
  | _ => l1

/-- Try the whole marker pattern `\[?(?:kws)\]?:?` at the current
position; `\[?` greedily consumes a leading bracket first and
backtracks to the empty match if the alternation then fails. -/
def tryMarker (kws : List (List Char)) : List Char → Option (List Char)
  | '[' :: rest =>
    (match tryKws kws rest with
     | some r => some (dropBrColon r)
     | none =>
       match tryKws kws ('[' :: rest) with
       | some r => some (dropBrColon r)
       | none => none)
  | l =>
    match tryKws kws l with
    | some r => some (dropBrColon r)
    | none => none

/-- `re.sub` of the marker pattern: scan left to right, replace each
match with `rep`, never rescanning the replacement. -/
def subKws (kws : List (List Char)) (rep : List Char) : Nat → List Char → List Char
  | 0, l => l
  | _ + 1, [] => []
  | n + 1, c :: rest =>
    match tryMarker kws (c :: rest) with
    | some r => rep ++ subKws kws rep n r
    | none => c :: subKws kws rep n rest

/-- Alternation of line 28: `SCENE DESCRIPTION|SCENE|VISUALS`. -/
def visKws : List (List Char) :=
  ["SCENE DESCRIPTION".toList, "SCENE".toList, "VISUALS".toList]

/-- Alternation of line 29: `SCRIPT|NARRATION|AUDIO`. -/
def audKws : List (List Char) :=
  ["SCRIPT".toList, "NARRATION".toList, "AUDIO".toList]

/-- Line 28: `re.sub on pattern \[?(?:SCENE DESCRIPTION|SCENE|VISUALS)\]?:? with
replacement [VISUAL], flags=re.IGNORECASE`. -/
def subVis (l : List Char) : List Char := subKws visKws "[VISUAL]".toList l.length l

/-- Line 29: `re.sub on pattern \[?(?:SCRIPT|NARRATION|AUDIO)\]?:? with
replacement [AUDIO], flags=re.IGNORECASE`. -/
def subAud (l : List Char) : List Char := subKws audKws "[AUDIO]".toList l.length l

/-- Lines 28-29: both normalization passes, visual first. -/
def normalizeMarkers (l : List Char) : List Char := subAud (subVis l)

/-- Length of the split delimiter `\[(?:VISUAL|AUDIO)\]` matching at the
current position (case-insensitive), if any: 8 for `[VISUAL]`, 7 for
`[AUDIO]`. -/
def markerLen (l : List Char) : Option Nat :=
  if (matchCI "[VISUAL]".toList l).isSome then some 8
  else if (matchCI "[AUDIO]".toList l).isSome then some 7
  else none

/-- Worker for `re.split` with a capturing group: alternate unmatched
text and the delimiter text (original casing), with empty fragments
kept, as Python does. -/
def splitGo : Nat → List Char → List Char → List (List Char)
  | 0, acc, l => [acc.reverse ++ l]
  | _ + 1, acc, [] => [acc.reverse]
  | n + 1, acc, c :: rest =>
    match markerLen (c :: rest) with
    | some k => acc.reverse :: (c :: rest).take k :: splitGo n [] ((c :: rest).drop k)
    | none => splitGo n (c :: acc) rest

/-- Line 32: `re.split on capturing pattern (\[(?:VISUAL|AUDIO)\]),
flags=re.IGNORECASE`. -/
def splitMarkers (l : List Char) : List (List Char) := splitGo l.length [] l

/-- Number of recognized canonical-marker occurrences the split finds. -/
def countGo : Nat → List Char → Nat
  | 0, _ => 0
  | _ + 1, [] => 0
  | n + 1, c :: rest =>
    match markerLen (c :: rest) with
    | some k => 1 + countGo n ((c :: rest).drop k)
    | none => countGo n rest

/-- How many marker delimiters segmentation finds in (already
normalized) text. -/
def countMarkers (l : List Char) : Nat := countGo l.length l

/-- Line 50: `re.sub removing \(.*?\) (flags=re.DOTALL)` — each
`(` is removed together with everything up to the nearest following
`)`; a `(` with no later `)` cannot start a match and is kept. -/
def rparens : Nat → List Char → List Char
  | 0, l => l
  | _ + 1, [] => []
  | n + 1, '(' :: rest =>
    (match rest.dropWhile (fun c => !(c == ')')) with
     | ')' :: tl => rparens n tl
     | _ => '(' :: rparens n rest)
  | n + 1, c :: rest => c :: rparens n rest

def removeParens (l : List Char) : List Char := rparens l.length l

/-- Python `str.split('\n')`: split on every newline, keeping empty
fragments. -/
def splitNl : List Char → List (List Char)
  | [] => [[]]
  | '\n' :: rest => [] :: splitNl rest
  | c :: rest =>
    match splitNl rest with
    | [] => [[c]]
    | ln :: lns => (c :: ln) :: lns

/-- `sep.join(blocks)` (Python `str.join`). -/
def joinWith (sep : List Char) : List (List Char) → List Char
  | [] => []
  | [b] => b
  | b :: bs => b ++ sep ++ joinWith sep bs

/-- Line 52: `re.sub removing ^#+.*$ (flags=re.MULTILINE)` —
every line starting with `#` is replaced by an empty line (`.` does not
cross the newline, which survives). -/
def removeHeadings (l : List Char) : List Char :=
  joinWith ['\n'] ((splitNl l).map (fun ln => if ln.head? = some '#' then [] else ln))

/-- The regex class `\w` (ASCII range, as in the inputs considered). -/
def isWordChar (c : Char) : Bool := c.isAlpha || c.isDigit || c == '_'

/-- Try `\w+:\s*` at a line-start position.  On success return the rest
of the input together with the line-start flag for the next scan
position: the greedy `\s*` may swallow newlines, so the next position
is a line start exactly when the last consumed character is a
newline. -/
def spMatch (l : List Char) : Option (Bool × List Char) :=
  let w := l.takeWhile isWordChar
  if w = [] then none
  else
    match l.drop w.length with
    | ':' :: rest =>
      let sp := rest.takeWhile pyIsSpace
      some (sp.getLast? == some '\n', rest.drop sp.length)
    | _ => none

/-- Worker for line 54: `re.sub removing ^\w+:\s* (flags=re.MULTILINE)`; `^` matches at position 0 and right after any
newline of the original text. -/
def spGo : Nat → Bool → List Char → List Char
  | 0, _, l => l
  | _ + 1, _, [] => []
  | n + 1, atStart, c :: rest =>
    if atStart then
      match spMatch (c :: rest) with
      | some (fl, r) => spGo n fl r
      | none => c :: spGo n (c == '\n') rest
    else c :: spGo n (c == '\n') rest

def stripSpeakers (l : List Char) : List Char := spGo l.length true l

/-- First half of line 56: `content.replace("**", "")`. -/
def removeDStar : List Char → List Char
  | [] => []
  | '*' :: '*' :: rest => removeDStar rest
  | c :: rest => c :: removeDStar rest

/-- Line 56: `content.replace("**", "").replace("*", "")` — the second
replace removes every remaining single `*`. -/
def removeStars (l : List Char) : List Char :=
  (removeDStar l).filter (fun c => !(c == '*'))

/-- Lines 50-56: the SPEECH cleanup pipeline applied to a run. -/
def cleanContent (l : List Char) : List Char :=
  removeStars (stripSpeakers (removeHeadings (removeParens l)))

/-- Lines 50-58: cleanup plus the trailing `.strip()` of line 59. -/
def cleanSpeech (l : List Char) : List Char := strip (cleanContent l)

/-- The two canonical tags (the source uses the strings `"AUDIO"` and
`"VISUAL"` for `current_tag`; `speech` is the AUDIO/spoken tag). -/
inductive Tag
  | speech
  | visual
deriving DecidableEq

/-- The loop state of lines 34-37: `current_tag`, `clean_audio`
(speech runs) and `clean_visuals` (visual runs). -/
structure SegState where
  currentTag : Option Tag
  speechRuns : List (List Char)
  visualRuns : List (List Char)
deriving DecidableEq

def audTok : List Char := "[AUDIO]".toList
def visTok : List Char := "[VISUAL]".toList

/-- Lines 39-62: one iteration of the accumulation loop over the split
fragments. -/
def stepPart (st : SegState) (part0 : List Char) : SegState :=
  let part := strip part0
  if part = [] then st
  else if upperL part = audTok then { st with currentTag := some Tag.speech }
  else if upperL part = visTok then { st with currentTag := some Tag.visual }
  else
    match st.currentTag with
    | some Tag.speech =>
      let content := cleanContent part
      if strip content = [] then st
      else { st with speechRuns := st.speechRuns ++ [strip content] }
    | some Tag.visual => { st with visualRuns := st.visualRuns ++ [strip part] }
    | none => st

/-- The whole accumulation loop over the split fragments of (already
normalized) text. -/
def segmentRuns (l : List Char) : SegState :=
  (splitMarkers l).foldl stepPart ⟨none, [], []⟩

/-- Substring test (`"EXT." in line` in Python). -/
def hasSub (needle : List Char) : List Char → Bool
  | [] => needle.isEmpty
  | c :: rest => needle.isPrefixOf (c :: rest) || hasSub needle rest

/-- Line 70: the per-line heuristic of the fallback path. -/
def isVisualLine (ln : List Char) : Bool :=
  ln.head? == some '(' || ln.head? == some '[' ||
    hasSub "EXT.".toList ln || hasSub "INT.".toList ln

/-- Lines 67-73: one iteration of the fallback loop (state: the two
block lists). -/
def fallbackStep (acc : List (List Char) × List (List Char)) (ln0 : List Char) :
    List (List Char) × List (List Char) :=
  let ln := strip ln0
  if ln = [] then acc
  else if isVisualLine ln then (acc.1, acc.2 ++ [ln])
  else (acc.1 ++ [ln], acc.2)

/-- Lines 65-73: the fallback classification over the normalized text. -/
def fallbackLists (l : List Char) : List (List Char) × List (List Char) :=
  (splitNl l).foldl fallbackStep ([], [])

/-- Lines 26-73: the two block lists `parse_script` joins at line 75. -/
def parse_blocks (l : List Char) : List (List Char) × List (List Char) :=
  let n := normalizeMarkers l
  let st := segmentRuns n
  if st.speechRuns = [] ∧ st.visualRuns = [] then fallbackLists n
  else (st.speechRuns, st.visualRuns)

/-- Does `parse_script l` take the fallback branch of line 65? -/
def usesFallback (l : List Char) : Bool :=
  let st := segmentRuns (normalizeMarkers l)
  st.speechRuns.isEmpty && st.visualRuns.isEmpty

/-- Lines 26-75: `parse_script` — the pair
`("\n\n".join(clean_audio), "\n\n".join(clean_visuals))`. -/
def parse_script (l : List Char) : List Char × List Char :=
  (joinWith ['\n', '\n'] (parse_blocks l).1, joinWith ['\n', '\n'] (parse_blocks l).2)

/-- The ordered sequence of tagged runs (spec section 3, TaggedRun): walk
the split fragments with the sticky current tag and record, in order of
appearance, each content fragment together with the tag in force. -/
def runsFrom (t : Option Tag) : List (List Char) → List (Tag × List Char)
  | [] => []
  | p :: ps =>
    if strip p = [] then runsFrom t ps
    else if upperL (strip p) = audTok then runsFrom (some Tag.speech) ps
    else if upperL (strip p) = visTok then runsFrom (some Tag.visual) ps
    else
      match t with
      | none => runsFrom none ps
      | some tg => (tg, strip p) :: runsFrom (some tg) ps

/-- The cleaned speech block a tagged run contributes, if any. -/
def speechOfRun : Tag × List Char → Option (List Char)
  | (Tag.speech, q) =>
    if strip (cleanContent q) = [] then none else some (strip (cleanContent q))
  | (Tag.visual, _) => none

/-- The visual block a tagged run contributes, if any. -/
def visualOfRun : Tag × List Char → Option (List Char)
  | (Tag.visual, q) => some (strip q)
  | (Tag.speech, _) => none

/-- Fallback classification as the spec words it (section 4.4): every
non-blank (stripped) line classified independently, visual-like lines to
the visual list, the rest to the speech list, order preserved. -/
def specFallback (n : List Char) : List (List Char) × List (List Char) :=
  let lns := ((splitNl n).map strip).filter (fun ln => !ln.isEmpty)
  (lns.filter (fun ln => !isVisualLine ln), lns.filter (fun ln => isVisualLine ln))

/-- No leading and no trailing whitespace. -/
def noEdgeSpace (l : List Char) : Prop :=
  (∀ c, l.head? = some c → pyIsSpace c = false) ∧
    (∀ c, l.getLast? = some c → pyIsSpace c = false)

/-- Modelled from the spec (section 4.5): whitespace-delimited tokens of
a string; the repository source computes no stats, so the stats layer is
taken from the words of the spec. -/
def tokensGo : List Char → List Char → List (List Char)
  | [], acc => if acc = [] then [] else [acc.reverse]
  | c :: rest, acc =>
    if pyIsSpace c then
      (if acc = [] then tokensGo rest [] else acc.reverse :: tokensGo rest [])
    else tokensGo rest (c :: acc)

/-- Modelled from the spec: the token list of a SPEECH output string. -/
def tokens (l : List Char) : List (List Char) := tokensGo l []

/-- Modelled from the spec: word count = number of whitespace-delimited
tokens in the SPEECH output. -/
def wordCount (l : List Char) : Nat := (tokens l).length

/-- Modelled from the spec: minutes = floor(wordCount / 150). -/
def minutes (w : Nat) : Nat := w / 150

/-- Modelled from the spec: seconds = floor((w / 150 − minutes) × 60),
which over the naturals is floor((w mod 150) × 60 / 150). -/
def seconds (w : Nat) : Nat := w % 150 * 60 / 150

/-- A 150-word text: 150 copies of a word, space-separated. -/
def words150 : List Char := joinWith [' '] (List.replicate 150 "word".toList)

/-- A 225-word text: 225 copies of a word, space-separated. -/
def words225 : List Char := joinWith [' '] (List.replicate 225 "word".toList)

/-! ### Lemmas about `strip` -/

theorem dropWhile_head?_not {p : Char → Bool} :
    ∀ (l : List Char) (c : Char), (l.dropWhile p).head? = some c → p c = false := by
  intro l
  induction l with
  | nil => intro c h; simp [List.dropWhile] at h
  | cons a t ih =>
    intro c h
    rw [List.dropWhile_cons] at h
    by_cases hp : p a = true
    · exact ih c (by simpa [hp] using h)
    · simp [hp] at h
      subst h
      simpa using hp

theorem dropWhile_getLast? {p : Char → Bool} :
    ∀ (l : List Char), l.dropWhile p ≠ [] → (l.dropWhile p).getLast? = l.getLast? := by
  intro l
  induction l with
  | nil => intro h; simp [List.dropWhile] at h
  | cons a t ih =>
    intro h
    rw [List.dropWhile_cons]
    by_cases hp : p a = true
    · rw [List.dropWhile_cons, if_pos hp] at h
      have ht : t ≠ [] := by
        intro he
        subst he
        simp [List.dropWhile] at h
      obtain ⟨b, t', rfl⟩ := List.exists_cons_of_ne_nil ht
      rw [if_pos hp, ih h, List.getLast?_cons_cons]
    · rw [if_neg hp]

theorem strip_noEdge (l : List Char) : noEdgeSpace (strip l) := by
  constructor
  · intro c h
    unfold strip at h
    rw [List.head?_reverse] at h
    set x := (l.dropWhile pyIsSpace).reverse with hx
    have hne : x.dropWhile pyIsSpace ≠ [] := by
      intro he
      rw [he] at h
      simp at h
    rw [dropWhile_getLast? x hne, hx, List.getLast?_reverse] at h
    exact dropWhile_head?_not l c h
  · intro c h
    unfold strip at h
    rw [List.getLast?_reverse] at h
    exact dropWhile_head?_not _ c h

theorem dropWhile_eq_self_of_noEdge {p : Char → Bool} (l : List Char)
    (h : ∀ c, l.head? = some c → p c = false) : l.dropWhile p = l := by
  cases l with
  | nil => rfl
  | cons a t =>
    rw [List.dropWhile_cons, if_neg]
    simp [h a rfl]

theorem strip_eq_self_of_noEdge (l : List Char) (h : noEdgeSpace l) : strip l = l := by
  unfold strip
  rw [dropWhile_eq_self_of_noEdge l h.1]
  rw [dropWhile_eq_self_of_noEdge l.reverse (fun c hc => h.2 c (by rwa [List.head?_reverse] at hc))]
  exact List.reverse_reverse l

theorem strip_idem (l : List Char) : strip (strip l) = strip l :=
  strip_eq_self_of_noEdge (strip l) (strip_noEdge l)

/-! ### Lemmas about `joinWith` -/

theorem noEdge_nil : noEdgeSpace [] := by
  constructor <;> intro c h <;> simp at h

theorem joinWith_ne_nil (sep : List Char) (b : List Char) (bs : List (List Char))
    (hb : b ≠ []) : joinWith sep (b :: bs) ≠ [] := by
  cases bs with
  | nil => simpa [joinWith] using hb
  | cons c r => simp [joinWith, hb]

theorem joinWith_noEdge (sep : List Char) :
    ∀ bs : List (List Char), (∀ b ∈ bs, b ≠ [] ∧ noEdgeSpace b) →
      noEdgeSpace (joinWith sep bs)
  | [] => fun _ => noEdge_nil
  | [b] => fun h => (h b (by simp)).2
  | b :: c :: r => fun h => by
    have hb := h b (by simp)
    have hrest : ∀ x ∈ c :: r, x ≠ [] ∧ noEdgeSpace x := fun x hx => h x (by simp [hx])
    have ihr : noEdgeSpace (joinWith sep (c :: r)) := joinWith_noEdge sep (c :: r) hrest
    have hjne : joinWith sep (c :: r) ≠ [] :=
      joinWith_ne_nil sep c r (hrest c (by simp)).1
    have hEq : joinWith sep (b :: c :: r) = b ++ sep ++ joinWith sep (c :: r) := by
      simp [joinWith]
    constructor
    · intro x hx
      rw [hEq, List.append_assoc, List.head?_append_of_ne_nil b hb.1] at hx
      exact hb.2.1 x hx
    · intro x hx
      rw [hEq, List.getLast?_append_of_ne_nil (b ++ sep) hjne] at hx
      exact ihr.2 x hx

/-! ### The segmentation loop produces exactly the in-order projections
of the tagged-run sequence -/

theorem visTok_ne_audTok : ¬(visTok = audTok) := by decide

theorem foldl_stepPart_eq (ps : List (List Char)) :
    ∀ (t : Option Tag) (sa sv : List (List Char)),
      (ps.foldl stepPart ⟨t, sa, sv⟩).speechRuns
          = sa ++ (runsFrom t ps).filterMap speechOfRun
        ∧ (ps.foldl stepPart ⟨t, sa, sv⟩).visualRuns
          = sv ++ (runsFrom t ps).filterMap visualOfRun := by
  induction ps with
  | nil => intro t sa sv; simp [runsFrom]
  | cons p ps ih =>
    intro t sa sv
    simp only [List.foldl_cons]
    by_cases h1 : strip p = []
    · simp [stepPart, runsFrom, h1, ih]
    · by_cases h2 : upperL (strip p) = audTok
      · simp [stepPart, runsFrom, h1, h2, ih]
      · by_cases h3 : upperL (strip p) = visTok
        · simp [stepPart, runsFrom, h1, h2, h3, ih, visTok_ne_audTok]
        · match t with
          | none => simp [stepPart, runsFrom, h1, h2, h3, ih]
          | some Tag.speech =>
            by_cases h4 : strip (cleanContent (strip p)) = []
            · simp [stepPart, runsFrom, h1, h2, h3, h4, ih, speechOfRun, visualOfRun]
            · simp [stepPart, runsFrom, h1, h2, h3, h4, ih, speechOfRun, visualOfRun]
          | some Tag.visual =>
            simp [stepPart, runsFrom, h1, h2, h3, ih, speechOfRun, visualOfRun]

theorem segmentRuns_eq (l : List Char) :
    (segmentRuns l).speechRuns
        = (runsFrom none (splitMarkers l)).filterMap speechOfRun
      ∧ (segmentRuns l).visualRuns
        = (runsFrom none (splitMarkers l)).filterMap visualOfRun := by
  simpa using foldl_stepPart_eq (splitMarkers l) none [] []

theorem runsFrom_mem :
    ∀ (ps : List (List Char)) (t : Option Tag) (r : Tag × List Char),
      r ∈ runsFrom t ps → r.2 ≠ [] ∧ strip r.2 = r.2 := by
  intro ps
  induction ps with
  | nil => intro t r h; simp [runsFrom] at h
  | cons p ps ih =>
    intro t r h
    by_cases h1 : strip p = []
    · simp only [runsFrom, if_pos h1] at h
      exact ih t r h
    · by_cases h2 : upperL (strip p) = audTok
      · simp only [runsFrom, if_neg h1, if_pos h2] at h
        exact ih _ r h
      · by_cases h3 : upperL (strip p) = visTok
        · simp only [runsFrom, if_neg h1, if_neg h2, if_pos h3] at h
          exact ih _ r h
        · match t with
          | none =>
            simp only [runsFrom, if_neg h1, if_neg h2, if_neg h3] at h
            exact ih _ r h
          | some tg =>
            simp only [runsFrom, if_neg h1, if_neg h2, if_neg h3] at h
            rcases List.mem_cons.mp h with he | hm
            · subst he
              exact ⟨h1, strip_idem p⟩
            · exact ih _ r hm

/-! ### The fallback loop is the per-line filter classification -/

theorem foldl_fallbackStep_eq (lns : List (List Char)) :
    ∀ sa sv : List (List Char),
      lns.foldl fallbackStep (sa, sv)
        = (sa ++ (((lns.map strip).filter (fun ln => !ln.isEmpty)).filter
              (fun ln => !isVisualLine ln)),
           sv ++ (((lns.map strip).filter (fun ln => !ln.isEmpty)).filter
              (fun ln => isVisualLine ln))) := by
  induction lns with
  | nil => intro sa sv; simp
  | cons ln lns ih =>
    intro sa sv
    simp only [List.foldl_cons, List.map_cons, List.filter_cons]
    by_cases h1 : strip ln = []
    · simp [fallbackStep, h1, ih]
    · by_cases h2 : isVisualLine (strip ln) = true
      · simp [fallbackStep, h1, h2, ih, List.isEmpty_iff]
      · simp [fallbackStep, h1, h2, ih, List.isEmpty_iff]

theorem fallbackLists_eq (n : List Char) : fallbackLists n = specFallback n := by
  rw [fallbackLists, specFallback, foldl_fallbackStep_eq]
  simp

/-! ### Every emitted block is a non-empty stripped string -/

theorem specFallback_mem (n : List Char) (b : List Char)
    (hb : b ∈ (specFallback n).1 ∨ b ∈ (specFallback n).2) : b ≠ [] ∧ noEdgeSpace b := by
  have hm : (∃ a ∈ splitNl n, strip a = b) ∧ ¬b = [] := by
    rcases hb with h | h
    · simp only [specFallback, List.mem_filter, List.mem_map,
        List.isEmpty_iff, Bool.not_eq_true'] at h
      obtain ⟨⟨hx, hni⟩, _⟩ := h
      exact ⟨hx, by simpa using hni⟩
    · simp only [specFallback, List.mem_filter, List.mem_map,
        List.isEmpty_iff, Bool.not_eq_true'] at h
      obtain ⟨⟨hx, hni⟩, _⟩ := h
      exact ⟨hx, by simpa using hni⟩
  obtain ⟨⟨x, _, rfl⟩, hne⟩ := hm
  exact ⟨hne, strip_noEdge x⟩

theorem segment_mem_speech (l : List Char) (b : List Char)
    (hb : b ∈ (segmentRuns l).speechRuns) : b ≠ [] ∧ noEdgeSpace b := by
  rw [(segmentRuns_eq l).1] at hb
  obtain ⟨r, _, hfr⟩ := List.mem_filterMap.mp hb
  obtain ⟨tg, q⟩ := r
  cases tg with
  | speech =>
    by_cases h : strip (cleanContent q) = []
    · simp [speechOfRun, h] at hfr
    · simp only [speechOfRun, if_neg h, Option.some.injEq] at hfr
      subst hfr
      exact ⟨h, strip_noEdge _⟩
  | visual => simp [speechOfRun] at hfr

theorem segment_mem_visual (l : List Char) (b : List Char)
    (hb : b ∈ (segmentRuns l).visualRuns) : b ≠ [] ∧ noEdgeSpace b := by
  rw [(segmentRuns_eq l).2] at hb
  obtain ⟨r, hr, hfr⟩ := List.mem_filterMap.mp hb
  have hq := runsFrom_mem _ _ _ hr
  obtain ⟨tg, q⟩ := r
  cases tg with
  | speech => simp [visualOfRun] at hfr
  | visual =>
    simp only [visualOfRun, Option.some.injEq] at hfr
    subst hfr
    refine ⟨?_, strip_noEdge q⟩
    rw [hq.2]
    exact hq.1

theorem parse_blocks_mem (l : List Char) (b : List Char)
    (hb : b ∈ (parse_blocks l).1 ∨ b ∈ (parse_blocks l).2) : b ≠ [] ∧ noEdgeSpace b := by
  by_cases hc : (segmentRuns (normalizeMarkers l)).speechRuns = []
      ∧ (segmentRuns (normalizeMarkers l)).visualRuns = []
  · have hpb : parse_blocks l = specFallback (normalizeMarkers l) := by
      simp only [parse_blocks]
      rw [if_pos hc, fallbackLists_eq]
    rw [hpb] at hb
    exact specFallback_mem _ b hb
  · have hpb : parse_blocks l
        = ((segmentRuns (normalizeMarkers l)).speechRuns,
           (segmentRuns (normalizeMarkers l)).visualRuns) := by
      simp only [parse_blocks]
      rw [if_neg hc]
    rw [hpb] at hb
    rcases hb with h | h
    · exact segment_mem_speech _ b h
    · exact segment_mem_visual _ b h

/-! ### The claims -/

/-- C1: the claim says marker normalization must not alter text outside
recognized marker spans, in particular must not rewrite the ordinary
word "script" inside a sentence.  The code (lines 28-29) performs
unanchored global substitution and does rewrite it: on the sentence
below, normalization replaces the noun "script" with the canonical tag,
and `parse_script` then returns the tail of the sentence as the whole
SPEECH output. -/
theorem spec_C1_eval :
    normalizeMarkers "I wrote a script yesterday.".toList
        = "I wrote a [AUDIO] yesterday.".toList
      ∧ parse_script "I wrote a script yesterday.".toList = ("yesterday.".toList, []) := by
  constructor
  · decide
  · decide

/-- C2 (counterexample): the claim says the fallback never applies to an
input containing a recognized marker; on `"[AUDIO]"` segmentation finds
one marker, yet both block lists stay empty and the fallback branch is
taken. -/
theorem spec_C2_cex :
    usesFallback "[AUDIO]".toList = true
      ∧ countMarkers (normalizeMarkers "[AUDIO]".toList) = 1 := by
  constructor
  · decide
  · decide

/-- C2 (amended): the fallback applies exactly when segmentation
accumulates zero cleaned blocks of either tag (which can also happen
when markers are present but no run has content that survives cleanup);
in that case every non-blank line of the NORMALIZED text is classified
independently, visual-like lines (line starts with a parenthesis or a
bracket, or contains "EXT." or "INT.") to the visual list, all other
lines to the speech list. -/
theorem spec_C2_amended (l : List Char) :
    (usesFallback l = true ↔
        ((segmentRuns (normalizeMarkers l)).speechRuns = []
          ∧ (segmentRuns (normalizeMarkers l)).visualRuns = []))
      ∧ (usesFallback l = true → parse_blocks l = specFallback (normalizeMarkers l)) := by
  constructor
  · simp [usesFallback, List.isEmpty_iff]
  · intro h
    have hc : (segmentRuns (normalizeMarkers l)).speechRuns = []
        ∧ (segmentRuns (normalizeMarkers l)).visualRuns = [] := by
      simpa [usesFallback, List.isEmpty_iff] using h
    simp only [parse_blocks]
    rw [if_pos hc, fallbackLists_eq]

/-- C2 (witness for the amended theorem): on `"[AUDIO]"` the fallback
branch is taken and the result is the per-line classification of the
normalized text. -/
theorem spec_C2_amended_w :
    parse_blocks "[AUDIO]".toList = specFallback (normalizeMarkers "[AUDIO]".toList) :=
  (spec_C2_amended "[AUDIO]".toList).2 (by decide)

/-- C3: order preservation.  In general the speech (resp. visual) block
list produced by segmentation is the in-order `filterMap` projection of
the tagged-run sequence of the split fragments, so relative order of
runs is preserved; and on `[VISUAL] A [AUDIO] B [VISUAL] C` the blocks
are VisualBlocks = [A, C] and SpeechBlocks = [B]. -/
theorem spec_C3 :
    (∀ l : List Char,
        (segmentRuns l).speechRuns
            = (runsFrom none (splitMarkers l)).filterMap speechOfRun
          ∧ (segmentRuns l).visualRuns
            = (runsFrom none (splitMarkers l)).filterMap visualOfRun)
      ∧ parse_blocks "[VISUAL] A [AUDIO] B [VISUAL] C".toList
          = (["B".toList], ["A".toList, "C".toList]) :=
  ⟨segmentRuns_eq, by decide⟩

/-- C4: `parse_script` is a total function — every string input yields a
pair of strings — and on the malformed inputs singled out by the spec
(empty string, `"[SCRIPT"` with no closing bracket) it returns a
well-defined result. -/
theorem spec_C4 :
    (∀ l : List Char, ∃ sp vis, parse_script l = (sp, vis))
      ∧ parse_script [] = ([], [])
      ∧ parse_script "[SCRIPT".toList = ([], "[AUDIO]".toList) :=
  ⟨fun l => ⟨(parse_script l).1, (parse_script l).2, rfl⟩, by decide, by decide⟩

/-- C5 (counterexample): the claimed exact cleanup output
the string with single spacing and single newline is not what the code produces:
removing the parenthetical leaves a double space and removing the
heading line leaves a blank line. -/
theorem spec_C5_cex :
    cleanSpeech "HOST: Hey everyone (smiles) **welcome**\n# Intro\nLet\x27s dive in".toList
      ≠ "Hey everyone welcome\nLet\x27s dive in".toList := by decide

/-- C5 (amended): the run cleans to
the same text with a double space and a blank line — speaker prefix,
parenthetical, heading line and bold markers removed, but with the
residual double space where the parenthetical stood and the residual
blank line where the heading stood. -/
theorem spec_C5_amended :
    cleanSpeech "HOST: Hey everyone (smiles) **welcome**\n# Intro\nLet\x27s dive in".toList
      = "Hey everyone  welcome\n\nLet\x27s dive in".toList := by decide

/-- C6 (counterexample): the SPEECH cleanup is not idempotent: the
speaker-prefix pass removes only the first stacked `Word:` prefix of a
line, so a second application strips further. -/
theorem spec_C6_cex :
    cleanSpeech (cleanSpeech "A: B: hi".toList) ≠ cleanSpeech "A: B: hi".toList := by decide

/-- C6 (amended): re-running the cleanup is a no-op provided the cleaned
text is a fixed point of each individual pass, i.e. no parenthetical
span, heading line, speaker prefix or markup remains after the first
application (the spec assumed this always holds; stacked speaker
prefixes and markup-hidden headings violate it). -/
theorem spec_C6_amended (l : List Char)
    (h1 : removeParens (cleanSpeech l) = cleanSpeech l)
    (h2 : removeHeadings (cleanSpeech l) = cleanSpeech l)
    (h3 : stripSpeakers (cleanSpeech l) = cleanSpeech l)
    (h4 : removeStars (cleanSpeech l) = cleanSpeech l) :
    cleanSpeech (cleanSpeech l) = cleanSpeech l := by
  have hc : cleanContent (cleanSpeech l) = cleanSpeech l := by
    unfold cleanContent
    rw [h1, h2, h3, h4]
  calc cleanSpeech (cleanSpeech l) = strip (cleanContent (cleanSpeech l)) := rfl
    _ = strip (cleanSpeech l) := by rw [hc]
    _ = strip (strip (cleanContent l)) := rfl
    _ = strip (cleanContent l) := strip_idem _
    _ = cleanSpeech l := rfl

/-- C6 (witness for the amended theorem) at a concrete cleaned text. -/
theorem spec_C6_amended_w :
    cleanSpeech (cleanSpeech "hi there".toList) = cleanSpeech "hi there".toList :=
  spec_C6_amended "hi there".toList (by decide) (by decide) (by decide) (by decide)

/-- C7 (counterexample): the unbracketed spelling `"VISUAL:"` is not a
recognized marker: normalization leaves it unchanged, segmentation finds
no marker in it, and the whole line ends up as SPEECH output of the
fallback path. -/
theorem spec_C7_cex :
    countMarkers (normalizeMarkers "VISUAL: wide shot".toList) = 0
      ∧ parse_script "VISUAL: wide shot".toList = ("VISUAL: wide shot".toList, []) := by
  constructor
  · decide
  · decide

/-- C7 (amended): every spelling variant (bare, bracketed, trailing
colon, bracketed plus colon, lowercase) of "SCENE DESCRIPTION", "SCENE"
and "VISUALS" normalizes to the canonical visual tag and is found as one
marker, and likewise every variant of "SCRIPT", "NARRATION" and "AUDIO"
normalizes to the canonical audio tag; but the bare word "VISUAL" is
recognized only in its fully bracketed form `[VISUAL]`
(case-insensitively, a trailing colon staying behind as residual text):
the unbracketed spellings "VISUAL" and "VISUAL:" are not rewritten and
match no marker. -/
theorem spec_C7_amended :
    ((["SCENE DESCRIPTION", "[SCENE DESCRIPTION]", "SCENE DESCRIPTION:",
        "[SCENE DESCRIPTION]:", "scene description",
        "SCENE", "[SCENE]", "SCENE:", "[SCENE]:", "scene",
        "VISUALS", "[VISUALS]", "VISUALS:", "[VISUALS]:", "visuals"].all fun s =>
          decide (normalizeMarkers s.toList = visTok)
            && decide (countMarkers (normalizeMarkers s.toList) = 1)) = true)
      ∧ ((["SCRIPT", "[SCRIPT]", "SCRIPT:", "[SCRIPT]:", "script",
          "NARRATION", "[NARRATION]", "NARRATION:", "[NARRATION]:", "narration",
          "AUDIO", "[AUDIO]", "AUDIO:", "[AUDIO]:", "audio"].all fun s =>
            decide (normalizeMarkers s.toList = audTok)
              && decide (countMarkers (normalizeMarkers s.toList) = 1)) = true)
      ∧ countMarkers (normalizeMarkers "[VISUAL]".toList) = 1
      ∧ countMarkers (normalizeMarkers "[visual]:".toList) = 1
      ∧ normalizeMarkers "VISUAL".toList = "VISUAL".toList
      ∧ countMarkers (normalizeMarkers "VISUAL".toList) = 0
      ∧ normalizeMarkers "VISUAL:".toList = "VISUAL:".toList
      ∧ countMarkers (normalizeMarkers "VISUAL:".toList) = 0 := by
  refine ⟨by decide, by decide, by decide, by decide, by decide, by decide, by decide, by decide⟩

set_option maxRecDepth 40000 in
/-- C8: stats over the SPEECH output (modelled from the spec, the source
computes none): seconds is always below 60, a 150-word text has word
count 150 and duration 1m 0s, a 225-word text has word count 225 and
duration 1m 30s. -/
theorem spec_C8 :
    (∀ w : Nat, seconds w < 60)
      ∧ wordCount words150 = 150 ∧ minutes 150 = 1 ∧ seconds 150 = 0
      ∧ wordCount words225 = 225 ∧ minutes 225 = 1 ∧ seconds 225 = 30 := by
  refine ⟨fun w => ?_, by decide, by decide, by decide, by decide, by decide, by decide⟩
  unfold seconds
  omega

/-- C9: on the marker-only input `"[AUDIO]"` both tagged block lists are
empty, the fallback path runs over the normalized text, and the marker
line (starting with a bracket) is emitted as a visual block: the result
is SPEECH output "" and VISUAL output "[AUDIO]". -/
theorem spec_C9 :
    (segmentRuns (normalizeMarkers "[AUDIO]".toList)).speechRuns = []
      ∧ (segmentRuns (normalizeMarkers "[AUDIO]".toList)).visualRuns = []
      ∧ usesFallback "[AUDIO]".toList = true
      ∧ parse_script "[AUDIO]".toList = ([], "[AUDIO]".toList) := by
  refine ⟨by decide, by decide, by decide, by decide⟩

/-- C10: for every input, both output strings of `parse_script` carry no
leading and no trailing whitespace: every block appended to either list
is stripped and non-empty, and the blank-line join preserves the clean
edges. -/
theorem spec_C10 (l : List Char) :
    noEdgeSpace (parse_script l).1 ∧ noEdgeSpace (parse_script l).2 := by
  constructor
  · exact joinWith_noEdge _ _ (fun b hb => parse_blocks_mem l b (Or.inl hb))
  · exact joinWith_noEdge _ _ (fun b hb => parse_blocks_mem l b (Or.inr hb))

end ScriptForge
